import Mathlib

/-!
Verification of the identity-and-change-tracking subsystem of the Incite
repository: the Java method extractor (`extractor/parser.py`) and the
change-tracking record store (`datastore/rawdatastore/postgresManager.py`),
shallowly embedded as executable Lean definitions.
-/

set_option maxHeartbeats 1000000

namespace Incite

/-- The character `{`, written via its code point to keep string literals
brace-free. -/
def openBrace : Char := Char.ofNat 123

/-- The character `}`, written via its code point. -/
def closeBrace : Char := Char.ofNat 125

/-! ### Decimal rendering of naturals

Python renders `f"{counter}"` in decimal.  We embed that rendering as an
explicit fuel-bounded digit expansion and prove it injective, which the
collision-suffix resolver needs. -/

/-- Decimal digit characters of `n`, most significant first; `fuel` bounds
the recursion depth (any `fuel > n` is enough). -/
def natDigitsAux : Nat → Nat → List Char
  | 0, _ => []
  | f + 1, n =>
    if n < 10 then [Nat.digitChar n]
    else natDigitsAux f (n / 10) ++ [Nat.digitChar (n % 10)]

/-- Decimal string of `n`, the embedding of Python string formatting of an
integer counter. -/
def natStr (n : Nat) : String := ⟨natDigitsAux (n + 1) n⟩

/-- Numeric value of a digit character. -/
def charVal (c : Char) : Nat := c.toNat - 48

/-- Value of a digit string read in base 10. -/
def strVal (s : List Char) : Nat := s.foldl (fun a c => 10 * a + charVal c) 0

theorem charVal_digitChar {d : Nat} (h : d < 10) : charVal (Nat.digitChar d) = d := by
  interval_cases d <;> decide

theorem strVal_append_singleton (a : List Char) (c : Char) :
    strVal (a ++ [c]) = 10 * strVal a + charVal c := by
  simp [strVal, List.foldl_append]

theorem strVal_natDigitsAux : ∀ fuel n, n < fuel → strVal (natDigitsAux fuel n) = n := by
  intro fuel
  induction fuel with
  | zero => intro n h; omega
  | succ f ih =>
    intro n h
    by_cases h10 : n < 10
    · simp [natDigitsAux, h10, strVal, charVal_digitChar h10]
    · have hdiv : n / 10 < n := Nat.div_lt_self (by omega) (by omega)
      have : n / 10 < f := by omega
      simp only [natDigitsAux, h10, if_false]
      rw [strVal_append_singleton, ih _ this, charVal_digitChar (Nat.mod_lt _ (by omega))]
      omega

theorem natDigitsAux_ne_nil : ∀ fuel n, 0 < fuel → natDigitsAux fuel n ≠ [] := by
  intro fuel n h
  match fuel, h with
  | f + 1, _ =>
    by_cases h10 : n < 10 <;> simp [natDigitsAux, h10]

theorem natStr_inj {m n : Nat} (h : natStr m = natStr n) : m = n := by
  have hd : natDigitsAux (m + 1) m = natDigitsAux (n + 1) n := congrArg String.data h
  have h1 := strVal_natDigitsAux (m + 1) m (Nat.lt_succ_self m)
  have h2 := strVal_natDigitsAux (n + 1) n (Nat.lt_succ_self n)
  rw [hd] at h1
  omega

theorem natStr_length_pos (n : Nat) : 0 < (natStr n).length := by
  have := natDigitsAux_ne_nil (n + 1) n (Nat.succ_pos n)
  simp only [natStr, String.length]
  cases hh : natDigitsAux (n + 1) n with
  | nil => exact absurd hh this
  | cons a l => simp

/-! ### Collision-suffix resolver

Embeds the registry loop of `JavaExtractor._extract_methods_from_tree`
(parser.py lines 76-81): starting from the base signature, append
`#sub_1`, `#sub_2`, ... while the candidate is already registered. -/

/-- The `k`-th candidate signature: the base itself for `k = 0`, then
`base#sub_k`, exactly the strings the Python while-loop tries in order. -/
def subSig (base : String) (k : Nat) : String :=
  if k = 0 then base else base ++ "#sub_" ++ natStr k

/-- Fuel-bounded search for the first unregistered candidate, the embedding
of the `while final_sig in file_id_registry` loop. -/
def resolveSigAux (registry : List String) (base : String) : Nat → Nat → String
  | k, 0 => subSig base k
  | k, fuel + 1 =>
    if subSig base k ∈ registry then resolveSigAux registry base (k + 1) fuel
    else subSig base k

/-- Resolved final signature; `registry.length + 1` fuel always suffices
(proved in `resolveSig_fresh`), so this equals the Python loop's result. -/
def resolveSig (registry : List String) (base : String) : String :=
  resolveSigAux registry base 0 (registry.length + 1)

theorem subSig_inj (base : String) {j k : Nat} (h : subSig base j = subSig base k) :
    j = k := by
  have hlen : ∀ n : Nat, n ≠ 0 → (subSig base n).length = base.length + 5 + (natStr n).length := by
    intro n hn
    simp only [subSig, hn, if_false, String.length_append]
    have h5 : "#sub_".length = 5 := by decide
    omega
  by_cases hj : j = 0 <;> by_cases hk : k = 0
  · omega
  · exfalso
    have := congrArg String.length h
    rw [hlen k hk] at this
    simp [subSig, hj] at this
    have := natStr_length_pos k
    omega
  · exfalso
    have := congrArg String.length h
    rw [hlen j hj] at this
    simp [subSig, hk] at this
    have := natStr_length_pos j
    omega
  · simp only [subSig, hj, hk, if_false] at h
    have hdata := congrArg String.data h
    simp only [String.data_append] at hdata
    have := List.append_cancel_left hdata
    exact natStr_inj (String.ext this)

theorem resolveSigAux_fresh (registry : List String) (base : String) :
    ∀ fuel k, (∃ j, j ≤ fuel ∧ subSig base (k + j) ∉ registry) →
      resolveSigAux registry base k fuel ∉ registry := by
  intro fuel
  induction fuel with
  | zero =>
    intro k ⟨j, hj, hfresh⟩
    have : j = 0 := Nat.le_zero.mp hj
    subst this
    simpa [resolveSigAux] using hfresh
  | succ f ih =>
    intro k ⟨j, hj, hfresh⟩
    by_cases hmem : subSig base k ∈ registry
    · have hj0 : j ≠ 0 := by
        intro h0; subst h0; simp at hfresh; exact hfresh hmem
      have : subSig base (k + 1 + (j - 1)) ∉ registry := by
        have : k + 1 + (j - 1) = k + j := by omega
        rw [this]; exact hfresh
      simpa [resolveSigAux, hmem] using ih (k + 1) ⟨j - 1, by omega, this⟩
    · simp [resolveSigAux, hmem]

theorem exists_fresh_subSig (registry : List String) (base : String) :
    ∃ j, j ≤ registry.length ∧ subSig base j ∉ registry := by
  by_contra hall
  push_neg at hall
  set n := registry.length with hn
  have himg : (Finset.range (n + 1)).image (subSig base) ⊆ registry.toFinset := by
    intro s hs
    rcases Finset.mem_image.mp hs with ⟨j, hj, rfl⟩
    exact List.mem_toFinset.mpr (hall j (Nat.lt_succ_iff.mp (Finset.mem_range.mp hj)))
  have hcard : ((Finset.range (n + 1)).image (subSig base)).card = n + 1 := by
    rw [Finset.card_image_of_injOn (fun a _ b _ h => subSig_inj base h)]
    simp
  have h1 : n + 1 ≤ registry.toFinset.card := hcard ▸ Finset.card_le_card himg
  have h2 : registry.toFinset.card ≤ n := hn ▸ registry.toFinset_card_le
  omega

/-- The resolver always returns a signature absent from the registry. -/
theorem resolveSig_fresh (registry : List String) (base : String) :
    resolveSig registry base ∉ registry := by
  obtain ⟨j, hj, hfresh⟩ := exists_fresh_subSig registry base
  exact resolveSigAux_fresh registry base (registry.length + 1) 0
    ⟨j, by omega, by simpa using hfresh⟩

/-- When the base signature is not yet registered, it is used unchanged. -/
theorem resolveSig_base_fresh (registry : List String) (base : String)
    (h : base ∉ registry) : resolveSig registry base = base := by
  have hb : subSig base 0 = base := by simp [subSig]
  simp [resolveSig, resolveSigAux, hb, h]

/-! ### Extraction pipeline model (`extractor/parser.py`)

The external javalang parser is an outside collaborator: its output is
modelled as data (a list of method-declaration nodes with their enclosing
structural paths, in document order), and `hashlib.md5` is modelled as an
abstract string-to-string digest parameter. -/

/-- One entry of the structural path enclosing a method declaration, as
`_get_nested_class_path` distinguishes them: a named class declaration, a
class creator (`new Type() { ... }`, anonymous when it has a body) with an
optional source line, or any other AST node. -/
inductive PathNode where
  | classDecl (name : String)
  | classCreator (hasBody : Bool) (position : Option Nat)
  | other
deriving DecidableEq

/-- A formal parameter as `_get_params_signature` sees it: an optional type
name (`None` when the type object has no name attribute) and a varargs flag. -/
structure Param where
  typeName : Option String
  varargs : Bool
deriving DecidableEq

/-- A method declaration node.  `returnTypeName = none` models a missing
return type (rendered `void`); `some none` a return-type object without a
name attribute (rendered `unknown`).  `positionLine` is the 1-based source
line of the declaration. -/
structure MethodNode where
  name : String
  parameters : List Param
  modifiers : List String
  returnTypeName : Option (Option String)
  documentation : Option String
  positionLine : Nat
deriving DecidableEq

/-- The per-file context dictionary built in `parse_file`. -/
structure Ctx where
  rel_path : String
  package_name : String
  imports : List String
  component : String
deriving DecidableEq

/-- Contribution of one path node to the nested class path: named classes
contribute their name, anonymous class bodies a synthesized `AnonL<line>`
(or `AnonLunk` without a position), everything else nothing. -/
def pathPart : PathNode → Option String
  | .classDecl name => some name
  | .classCreator hasBody pos =>
    if hasBody then
      some ("AnonL" ++ (match pos with | some l => natStr l | none => "unk"))
    else none
  | .other => none

/-- Embedding of `_get_nested_class_path`: `$`-joined parts, or the
sentinel `Unknown` when no part contributes. -/
def getNestedClassPath (path : List PathNode) : String :=
  let parts := path.filterMap pathPart
  if parts.isEmpty then "Unknown" else String.intercalate "$" parts

/-- Rendering of one parameter type, with the varargs `...` suffix. -/
def paramType (p : Param) : String :=
  let t := p.typeName.getD "unknown"
  if p.varargs then t ++ "..." else t

/-- Embedding of `_get_params_signature`. -/
def getParamsSignature (node : MethodNode) : String :=
  String.intercalate "," (node.parameters.map paramType)

/-- Embedding of `_get_return_type`. -/
def getReturnType (node : MethodNode) : String :=
  match node.returnTypeName with
  | none => "void"
  | some t => t.getD "unknown"

/-- Embedding of `_get_visibility`: the first modifier among
public/private/protected, else `package-private`. -/
def getVisibility (node : MethodNode) : String :=
  (node.modifiers.find? fun m => m == "public" || m == "private" || m == "protected").getD
    "package-private"

/-- Splitting of a character list at a separator, the embedding of Python
`str.split(sep)`: always at least one (possibly empty) segment. -/
def splitOnCharAux (sep : Char) : List Char → List Char → List (List Char)
  | [], acc => [acc.reverse]
  | c :: cs, acc =>
    if c = sep then acc.reverse :: splitOnCharAux sep cs []
    else splitOnCharAux sep cs (c :: acc)

/-- String-level wrapper of `splitOnCharAux`. -/
def splitOnChar (sep : Char) (s : String) : List String :=
  (splitOnCharAux sep s.data []).map fun l => ⟨l⟩

/-- Opening-minus-closing brace count of one line. -/
def braceDelta (l : String) : Int :=
  (l.data.count openBrace : Int) - (l.data.count closeBrace : Int)

/-- Embedding of the loop of `_get_method_body`: append lines while
maintaining the running brace balance, stopping (inclusively) at the first
line after which a brace has opened and the balance is `≤ 0`. -/
def collectBody : List String → Int → Bool → List String
  | [], _, _ => []
  | l :: rest, bc, started =>
    if (started || l.data.contains openBrace) ∧ bc + braceDelta l ≤ 0 then [l]
    else l :: collectBody rest (bc + braceDelta l) (started || l.data.contains openBrace)

/-- Embedding of `_get_method_body`: the newline-joined body and its line
count, starting at `startLine` (0-based). -/
def getMethodBody (lines : List String) (startLine : Nat) : String × Nat :=
  let body := collectBody (lines.drop startLine) 0 false
  (String.intercalate "\n" body, body.length)

/-- The package prefix used by `_analyze_dependencies`: the first two
dot-separated segments, or the whole single segment. -/
def depPrefix (package_name : String) : String :=
  let parts := splitOnChar '.' package_name
  if parts.length > 1 then String.intercalate "." (parts.take 2) else parts.headD ""

/-- Embedding of `_analyze_dependencies`: imports starting with the package
prefix are internal, the rest external. -/
def analyzeDependencies (package_name : String) (all_imports : List String) :
    List String × List String :=
  let pfx := depPrefix package_name
  (all_imports.filter fun i => pfx.data.isPrefixOf i.data,
   all_imports.filter fun i => !(pfx.data.isPrefixOf i.data))

/-- One extraction tuple, mirroring the dictionary built in
`_extract_methods_from_tree`. -/
structure MethodTuple where
  id : String
  content_hash : String
  source : String
  component : String
  package : String
  class_name : String
  method_name : String
  line_count : Nat
  visibility : String
  return_type : String
  method_code : String
  javadoc_raw : String
  internal_deps : String
  external_libs : String
deriving DecidableEq

/-- The base signature `rel_path#class_path#name(params)`. -/
def baseSig (ctx : Ctx) (path : List PathNode) (node : MethodNode) : String :=
  ctx.rel_path ++ "#" ++ getNestedClassPath path ++ "#" ++ node.name ++ "(" ++
    getParamsSignature node ++ ")"

/-- The extraction tuple for one method, given its resolved final
signature. -/
def mkMethodTuple (md5 : String → String) (lines : List String) (ctx : Ctx)
    (class_path final_sig : String) (node : MethodNode) : MethodTuple :=
  let mb := getMethodBody lines (node.positionLine - 1)
  let deps := analyzeDependencies ctx.package_name ctx.imports
  { id := md5 final_sig
    content_hash := md5 mb.1
    source := ctx.rel_path
    component := ctx.component
    package := ctx.package_name
    class_name := class_path
    method_name := node.name
    line_count := mb.2
    visibility := getVisibility node
    return_type := getReturnType node
    method_code := mb.1
    javadoc_raw := node.documentation.getD ""
    internal_deps := String.intercalate ", " (deps.1.take 10)
    external_libs := String.intercalate ", " (deps.2.take 10) }

/-- The main loop of `_extract_methods_from_tree`, threading the in-file
signature registry. -/
def extractLoop (md5 : String → String) (lines : List String) (ctx : Ctx) :
    List (List PathNode × MethodNode) → List String → List MethodTuple
  | [], _ => []
  | (path, node) :: rest, registry =>
    let final_sig := resolveSig registry (baseSig ctx path node)
    mkMethodTuple md5 lines ctx (getNestedClassPath path) final_sig node ::
      extractLoop md5 lines ctx rest (final_sig :: registry)

/-- Embedding of `_extract_methods_from_tree`, starting from an empty
registry. -/
def extractMethodsFromTree (md5 : String → String) (lines : List String) (ctx : Ctx)
    (nodes : List (List PathNode × MethodNode)) : List MethodTuple :=
  extractLoop md5 lines ctx nodes []

/-- The final signatures issued by `extractLoop`, in order. -/
def extractLoopSigs (ctx : Ctx) :
    List (List PathNode × MethodNode) → List String → List String
  | [], _ => []
  | (path, node) :: rest, registry =>
    let final_sig := resolveSig registry (baseSig ctx path node)
    final_sig :: extractLoopSigs ctx rest (final_sig :: registry)

/-- What the external parsing collaborator returns for one file: the
declared package (if any), the import paths, and the method-declaration
nodes paired with their enclosing structural paths, in document order. -/
structure ParsedTree where
  package : Option String
  imports : List String
  methodNodes : List (List PathNode × MethodNode)

/-- One file of the walked tree: its file name, its path relative to the
scanned root, and the outcome of reading it (`Except` models I/O or
encoding errors raised by `open`/`read`). -/
structure FileEntry where
  name : String
  relPath : String
  readResult : Except String String

/-- The scanned root directory: whether it exists, and its files in walk
order. -/
structure SourceDir where
  dirExists : Bool
  files : List FileEntry

/-- Splitting of file content into lines, modelling `str.splitlines`. -/
def splitLines (s : String) : List String := splitOnChar (Char.ofNat 10) s

/-- The file context built in `parse_file`, with `/` as path separator. -/
def mkCtx (relPath : String) (tree : ParsedTree) : Ctx :=
  { rel_path := relPath
    package_name := tree.package.getD "default"
    imports := tree.imports
    component := (splitOnChar '/' relPath).headD "" }

/-- Embedding of `parse_file`: a failed read or a failed parse (of any
kind) contributes no records; otherwise extract from the parsed tree. -/
def parseFile (md5 : String → String) (parseFn : String → Except String ParsedTree)
    (f : FileEntry) : List MethodTuple :=
  match f.readResult with
  | .error _ => []
  | .ok code =>
    match parseFn code with
    | .error _ => []
    | .ok tree =>
      extractMethodsFromTree md5 (splitLines code) (mkCtx f.relPath tree) tree.methodNodes

/-- The file filter of `extract_from_directory`: `.java` files whose name
does not contain `module-info.java`. -/
def isJavaTarget (f : FileEntry) : Bool :=
  (".java".data.reverse.isPrefixOf f.name.data.reverse) &&
    !(decide ("module-info.java".data <:+: f.name.data))

/-- Embedding of `extract_from_directory`: empty result for a missing
root, otherwise the concatenation of every target file's records. -/
def extractFromDirectory (md5 : String → String)
    (parseFn : String → Except String ParsedTree) (dir : SourceDir) : List MethodTuple :=
  if dir.dirExists then (dir.files.filter isJavaTarget).flatMap (parseFile md5 parseFn)
  else []

/-! ### Change-tracking store model (`datastore/rawdatastore/postgresManager.py`)

The `java_methods` table is modelled as a list of rows; each SQL statement
becomes a pure function on that list.  Timestamps are integers, monetary
cost is an exact rational, nullable columns are `Option`s. -/

/-- A JSON scalar stored inside the `metadata_json` JSONB column. -/
inductive JVal where
  | str (s : String)
  | num (n : Int)
  | bool (b : Bool)
  | null
deriving DecidableEq

/-- A JSONB object: key-value pairs (keys unique in Postgres JSONB). -/
abbrev JsonObj := List (String × JVal)

/-- One row of the `java_methods` table.  Columns absent from the INSERT
column list carry their table defaults (`none` / `0`). -/
structure Row where
  id : String
  source_path : String
  component : String
  package_name : String
  class_name : String
  method_name : String
  visibility : String
  return_type : String
  method_code : String
  javadoc_raw : String
  internal_deps : String
  external_libs : String
  content_hash : String
  line_count : Nat
  status : String
  vector_status : String
  last_seen_at : Int
  ai_summary : Option String
  ai_details : Option String
  is_doc_accurate : Option Bool
  metadata_json : Option JsonObj
  summary_tokens : Int
  vector_tokens : Int
  total_cost : Rat
  processed_at : Option Int
deriving DecidableEq

/-- Lookup of the row keyed by `id` (the primary key). -/
def findRow (db : List Row) (id : String) : Option Row :=
  db.find? fun r => r.id == id

/-- The row inserted by `upsert_methods` when no conflict occurs: origin
fields from the tuple, `status='new'`, `vector_status='pending'`,
`last_seen_at` the scan time, defaults elsewhere. -/
def insertRow (m : MethodTuple) (now : Int) : Row :=
  { id := m.id
    source_path := m.source
    component := m.component
    package_name := m.package
    class_name := m.class_name
    method_name := m.method_name
    visibility := m.visibility
    return_type := m.return_type
    method_code := m.method_code
    javadoc_raw := m.javadoc_raw
    internal_deps := m.internal_deps
    external_libs := m.external_libs
    content_hash := m.content_hash
    line_count := m.line_count
    status := "new"
    vector_status := "pending"
    last_seen_at := now
    ai_summary := none
    ai_details := none
    is_doc_accurate := none
    metadata_json := none
    summary_tokens := 0
    vector_tokens := 0
    total_cost := 0
    processed_at := none }

/-- Per-tuple semantics of the `INSERT ... ON CONFLICT (id) DO UPDATE`
statement of `upsert_methods`: insert when the id is absent, otherwise
apply the conditional `SET` clause to the conflicting row. -/
def upsertOne (db : List Row) (m : MethodTuple) (now : Int) : List Row :=
  if db.any (fun r => r.id == m.id) then
    db.map fun r =>
      if r.id == m.id then
        { r with
          status := if r.content_hash ≠ m.content_hash then "updated" else r.status
          vector_status := if r.content_hash ≠ m.content_hash then "pending" else r.vector_status
          method_code := m.method_code
          javadoc_raw := m.javadoc_raw
          internal_deps := m.internal_deps
          external_libs := m.external_libs
          content_hash := m.content_hash
          line_count := m.line_count
          last_seen_at := now }
      else r
  else db ++ [insertRow m now]

/-- Embedding of `upsert_methods`: every tuple of the batch goes through
the per-row upsert, in order, all with the same scan time. -/
def upsertMethods (db : List Row) (ms : List MethodTuple) (now : Int) : List Row :=
  ms.foldl (fun d m => upsertOne d m now) db

/-- Embedding of `update_vector_sync_status` (single form): mark synced,
store the token count, add the cost. -/
def updateVectorSyncStatus (db : List Row) (method_id : String) (tokens : Int)
    (cost : Rat) : List Row :=
  db.map fun r =>
    if r.id == method_id then
      { r with
        vector_status := "synced"
        vector_tokens := tokens
        total_cost := r.total_cost + cost }
    else r

/-- Per-row effect of the set-based UPDATE of `bulk_update_vector_sync`:
the first VALUES entry whose id matches the row determines the update. -/
def bulkRowUpdate (update_data : List (String × Int × Rat)) (r : Row) : Row :=
  match update_data.find? (fun d => d.1 == r.id) with
  | some (_, tokens, cost) =>
    { r with
      vector_status := "synced"
      vector_tokens := tokens
      total_cost := r.total_cost + cost }
  | none => r

/-- Embedding of `bulk_update_vector_sync`: one set-based UPDATE joining
the VALUES list on id; a row matched by an entry gets that entry's update,
unmatched rows are untouched, and an empty list is a no-op (the early
return). -/
def bulkUpdateVectorSync (db : List Row) (update_data : List (String × Int × Rat)) :
    List Row :=
  if update_data.isEmpty then db else db.map (bulkRowUpdate update_data)

/-- JSONB containment of a single key-value pair, the meaning of
`metadata_json @> '\x7b"is_getter_setter": true\x7d'`. -/
def jHasPair (obj : JsonObj) (k : String) (v : JVal) : Bool :=
  obj.any fun p => p.1 == k && p.2 == v

/-- The WHERE clause of `get_methods_to_vectorize`.  A SQL-NULL
`metadata_json` makes the `NOT (... @> ...)` conjunct unknown, so the row
is excluded (three-valued logic). -/
def vectorizeFilter (r : Row) : Bool :=
  r.vector_status == "pending" && r.status == "ai_processed" &&
    (match r.metadata_json with
     | none => false
     | some obj => !(jHasPair obj "is_getter_setter" (JVal.bool true)))

/-- Embedding of `get_methods_to_vectorize`: filtered rows, capped at
`limit`. -/
def getMethodsToVectorize (db : List Row) (limit : Nat) : List Row :=
  (db.filter vectorizeFilter).take limit

/-- SQL LIKE matching over character lists: `%` matches any sequence, `_`
any single character, anything else itself. -/
def likeMatchF : Nat → List Char → List Char → Bool
  | 0, _, _ => false
  | _ + 1, [], s => s.isEmpty
  | fuel + 1, pc :: ps, s =>
    if pc = '%' then
      match s with
      | [] => likeMatchF fuel ps []
      | c :: cs => likeMatchF fuel ps (c :: cs) || likeMatchF fuel (pc :: ps) cs
    else
      match s with
      | [] => false
      | c :: cs => (pc == '_' || pc == c) && likeMatchF fuel ps cs

/-- SQL LIKE matching; the fuel `p.length + s.length + 1` always suffices
(each recursive call shortens the pattern or the string). -/
def likeMatch (p s : List Char) : Bool := likeMatchF (p.length + s.length + 1) p s

/-- Embedding of `get_stale_methods`: ids of rows whose source path
matches the LIKE pattern `repo_path_pfx%` and whose `last_seen_at`
precedes the scan start time. -/
def getStaleMethods (db : List Row) (repo_path_pfx : String)
    (scan_start_time : Int) : List String :=
  (db.filter fun r =>
      likeMatch (repo_path_pfx.data ++ ['%']) r.source_path.data &&
        r.last_seen_at < scan_start_time).map
    fun r => r.id

/-- Stated from the spec's words, for comparison with the code: an import
"shares the first two dot-separated package segments" with the file's own
package. -/
def sharesFirstTwoSegments (package_name imp : String) : Bool :=
  (splitOnChar '.' package_name).take 2 == (splitOnChar '.' imp).take 2

/-! ### Claim theorems -/

theorem upsertOne_id_preserved (m : MethodTuple) (now : Int) (r : Row) :
    (if r.id == m.id then
        { r with
          status := if r.content_hash ≠ m.content_hash then "updated" else r.status
          vector_status := if r.content_hash ≠ m.content_hash then "pending" else r.vector_status
          method_code := m.method_code
          javadoc_raw := m.javadoc_raw
          internal_deps := m.internal_deps
          external_libs := m.external_libs
          content_hash := m.content_hash
          line_count := m.line_count
          last_seen_at := now }
      else r).id = r.id := by
  by_cases h : r.id == m.id <;> simp [h]

/-- C1: reconciliation rule of `upsert_methods`.  Each tuple of a batch is
reconciled by the per-row upsert, in order (first conjunct).  A tuple whose
id is absent is appended as a fresh row with `status='new'`,
`vector_status='pending'` and `last_seen_at` the scan time (second
conjunct).  A tuple whose id is present rewrites the stored row: status
and vector_status become `'updated'`/`'pending'` exactly when the stored
content hash differs from the incoming one and keep their prior values
otherwise (whatever those values were, including `'ai_processed'` and
`'synced'`), while the origin fields (method_code, javadoc_raw,
internal_deps, external_libs, content_hash, line_count) are overwritten and
`last_seen_at` is set to the scan time (third conjunct). -/
theorem upsert_methods_reconciliation :
    (∀ (db : List Row) (now : Int) (pre post : List MethodTuple) (m : MethodTuple),
        upsertMethods db (pre ++ m :: post) now =
          upsertMethods (upsertOne (upsertMethods db pre now) m now) post now) ∧
    (∀ (db : List Row) (m : MethodTuple) (now : Int),
        findRow db m.id = none →
          upsertOne db m now = db ++ [insertRow m now] ∧
          (insertRow m now).status = "new" ∧
          (insertRow m now).vector_status = "pending" ∧
          (insertRow m now).last_seen_at = now) ∧
    (∀ (db : List Row) (m : MethodTuple) (now : Int) (r : Row),
        findRow db m.id = some r →
          findRow (upsertOne db m now) m.id = some
            { r with
              status := if r.content_hash ≠ m.content_hash then "updated" else r.status
              vector_status :=
                if r.content_hash ≠ m.content_hash then "pending" else r.vector_status
              method_code := m.method_code
              javadoc_raw := m.javadoc_raw
              internal_deps := m.internal_deps
              external_libs := m.external_libs
              content_hash := m.content_hash
              line_count := m.line_count
              last_seen_at := now }) := by
  refine ⟨?_, ?_, ?_⟩
  · intro db now pre post m
    simp [upsertMethods, List.foldl_append]
  · intro db m now h
    rw [findRow, List.find?_eq_none] at h
    have hany : db.any (fun r => r.id == m.id) = false := by
      rw [List.any_eq_false]
      exact h
    exact ⟨by simp [upsertOne, hany], rfl, rfl, rfl⟩
  · intro db m now r h
    rw [findRow] at h
    have hmem : r ∈ db := List.mem_of_find?_eq_some h
    have hpred : (r.id == m.id) = true := by
      have hp := List.find?_some h
      simpa using hp
    have hany : db.any (fun r => r.id == m.id) = true :=
      List.any_eq_true.mpr ⟨r, hmem, hpred⟩
    rw [upsertOne, if_pos hany, findRow, List.find?_map]
    have hcomp :
        ((fun s : Row => s.id == m.id) ∘ fun s : Row =>
          if s.id == m.id then
            { s with
              status := if s.content_hash ≠ m.content_hash then "updated" else s.status
              vector_status :=
                if s.content_hash ≠ m.content_hash then "pending" else s.vector_status
              method_code := m.method_code
              javadoc_raw := m.javadoc_raw
              internal_deps := m.internal_deps
              external_libs := m.external_libs
              content_hash := m.content_hash
              line_count := m.line_count
              last_seen_at := now }
          else s) = fun s : Row => s.id == m.id := by
      funext s
      simp only [Function.comp_apply, upsertOne_id_preserved]
    rw [hcomp, h]
    have heq : r.id = m.id := by simpa using hpred
    simp [heq]

/-- Concrete stored row used by witnesses: terminal in both pipelines
(`status='ai_processed'`, `vector_status='synced'`), content hash `h1`. -/
def exRow : Row :=
  { id := "a"
    source_path := "repo/A.java"
    component := "repo"
    package_name := "com.x"
    class_name := "A"
    method_name := "f"
    visibility := "public"
    return_type := "void"
    method_code := "old"
    javadoc_raw := ""
    internal_deps := ""
    external_libs := ""
    content_hash := "h1"
    line_count := 2
    status := "ai_processed"
    vector_status := "synced"
    last_seen_at := 1
    ai_summary := some "s"
    ai_details := none
    is_doc_accurate := some true
    metadata_json := some []
    summary_tokens := 1
    vector_tokens := 5
    total_cost := 0
    processed_at := some 1 }

/-- Concrete incoming extraction tuple with a chosen id and content hash. -/
def exTuple (i ch : String) : MethodTuple :=
  { id := i
    content_hash := ch
    source := "repo/A.java"
    component := "repo"
    package := "com.x"
    class_name := "A"
    method_name := "f"
    line_count := 2
    visibility := "public"
    return_type := "void"
    method_code := "code2"
    javadoc_raw := ""
    internal_deps := ""
    external_libs := "" }

/-- Witness for C1 at concrete inputs: a changed hash re-arms both status
fields even from the terminal `ai_processed`/`synced` pair, an unchanged
hash leaves them untouched, and an unseen id inserts a fresh
`new`/`pending` row stamped with the scan time. -/
theorem upsert_methods_reconciliation_witness :
    (Option.map Row.status (findRow (upsertOne [exRow] (exTuple "a" "h2") 7) (exTuple "a" "h2").id) =
      some "updated") ∧
    (Option.map Row.vector_status (findRow (upsertOne [exRow] (exTuple "a" "h2") 7) (exTuple "a" "h2").id) =
      some "pending") ∧
    (Option.map Row.status (findRow (upsertOne [exRow] (exTuple "a" "h1") 7) (exTuple "a" "h1").id) =
      some "ai_processed") ∧
    (Option.map Row.vector_status (findRow (upsertOne [exRow] (exTuple "a" "h1") 7) (exTuple "a" "h1").id) =
      some "synced") ∧
    (Option.map Row.last_seen_at (findRow (upsertOne [exRow] (exTuple "a" "h1") 7) (exTuple "a" "h1").id) =
      some 7) ∧
    (upsertOne [exRow] (exTuple "b" "h2") 7 = [exRow] ++ [insertRow (exTuple "b" "h2") 7] ∧
      (insertRow (exTuple "b" "h2") 7).status = "new" ∧
      (insertRow (exTuple "b" "h2") 7).vector_status = "pending" ∧
      (insertRow (exTuple "b" "h2") 7).last_seen_at = 7) ∧
    (upsertMethods [exRow] ([] ++ exTuple "a" "h2" :: []) 7 =
      upsertMethods (upsertOne (upsertMethods [exRow] [] 7) (exTuple "a" "h2") 7) [] 7) := by
  refine ⟨?_, ?_, ?_, ?_, ?_, ?_, ?_⟩
  · rw [upsert_methods_reconciliation.2.2 [exRow] (exTuple "a" "h2") 7 exRow rfl]; decide
  · rw [upsert_methods_reconciliation.2.2 [exRow] (exTuple "a" "h2") 7 exRow rfl]; decide
  · rw [upsert_methods_reconciliation.2.2 [exRow] (exTuple "a" "h1") 7 exRow rfl]; decide
  · rw [upsert_methods_reconciliation.2.2 [exRow] (exTuple "a" "h1") 7 exRow rfl]; decide
  · rw [upsert_methods_reconciliation.2.2 [exRow] (exTuple "a" "h1") 7 exRow rfl]; decide
  · exact upsert_methods_reconciliation.2.1 [exRow] (exTuple "b" "h2") 7 rfl
  · exact upsert_methods_reconciliation.1 [exRow] 7 [] [] (exTuple "a" "h2")

theorem findRow_map (db : List Row) (g : Row → Row) (hg : ∀ r, (g r).id = r.id)
    (i : String) : findRow (db.map g) i = Option.map g (findRow db i) := by
  have hp : ((fun r : Row => r.id == i) ∘ g) = fun r : Row => r.id == i := by
    funext r
    simp [Function.comp, hg]
  rw [findRow, List.find?_map, hp, findRow]

theorem findRow_id {db : List Row} {i : String} {r : Row} (h : findRow db i = some r) :
    r.id = i := by
  rw [findRow] at h
  have hp := List.find?_some h
  simpa using hp

/-- C8: `get_methods_to_vectorize` returns only rows with
`vector_status='pending'` and `status='ai_processed'` whose enrichment
payload does not carry the boilerplate flag (`is_getter_setter: true` in
`metadata_json`), and returns at most `limit` rows; in particular a row
whose payload carries the flag is never returned. -/
theorem get_methods_to_vectorize_sound (db : List Row) (limit : Nat) :
    (∀ r ∈ getMethodsToVectorize db limit,
        r.vector_status = "pending" ∧ r.status = "ai_processed" ∧
        ∀ obj, r.metadata_json = some obj →
          jHasPair obj "is_getter_setter" (JVal.bool true) = false) ∧
    (getMethodsToVectorize db limit).length ≤ limit := by
  constructor
  · intro r hr
    have hf : vectorizeFilter r = true := List.of_mem_filter (List.mem_of_mem_take hr)
    simp only [vectorizeFilter, Bool.and_eq_true, beq_iff_eq] at hf
    obtain ⟨⟨h1, h2⟩, h3⟩ := hf
    refine ⟨h1, h2, ?_⟩
    intro obj hobj
    rw [hobj] at h3
    simpa using h3
  · exact List.length_take_le limit _

/-- Qualifying row for the vectorization-query witness. -/
def vRow1 : Row :=
  { exRow with id := "v1", vector_status := "pending", status := "ai_processed",
               metadata_json := some [("is_getter_setter", JVal.bool false)] }

/-- Boilerplate-flagged row, to be excluded. -/
def vRow2 : Row :=
  { exRow with id := "v2", vector_status := "pending", status := "ai_processed",
               metadata_json := some [("is_getter_setter", JVal.bool true)] }

/-- Already-synced row, to be excluded. -/
def vRow3 : Row :=
  { exRow with id := "v3", vector_status := "synced", status := "ai_processed",
               metadata_json := some [] }

/-- Table for the vectorization-query witness. -/
def vecDb : List Row := [vRow1, vRow2, vRow3]

/-- Witness for C8 at a concrete table: the returned row is exactly the
unflagged pending/ai_processed one, its fields satisfy the filter, and the
cap holds. -/
theorem get_methods_to_vectorize_sound_witness :
    vRow1.vector_status = "pending" ∧ vRow1.status = "ai_processed" ∧
    jHasPair [("is_getter_setter", JVal.bool false)] "is_getter_setter" (JVal.bool true) =
      false ∧
    (getMethodsToVectorize vecDb 2).length ≤ 2 ∧
    getMethodsToVectorize vecDb 2 = [vRow1] := by
  obtain ⟨h1, h2, h3⟩ :=
    (get_methods_to_vectorize_sound vecDb 2).1 vRow1 (by decide)
  exact ⟨h1, h2, h3 _ rfl, (get_methods_to_vectorize_sound vecDb 2).2, by decide⟩

theorem likeMatchF_prefix_pattern :
    ∀ fuel (q s : List Char), q.length + s.length + 1 < fuel →
      (∀ c ∈ q, c ≠ '%' ∧ c ≠ '_') →
      (likeMatchF fuel (q ++ ['%']) s = true ↔ q <+: s) := by
  intro fuel
  induction fuel with
  | zero => intro q s h; omega
  | succ f ih =>
    intro q s hlen hq
    cases q with
    | nil =>
      cases s with
      | nil =>
        obtain ⟨f', rfl⟩ : ∃ f', f = f' + 1 := ⟨f - 1, by omega⟩
        simp [likeMatchF]
      | cons c cs =>
        have hc : likeMatchF f ['%'] cs = true := by
          have := ih [] cs (by simp at hlen ⊢; omega) (by simp)
          simpa using this.mpr List.nil_prefix
        simp [likeMatchF, hc, List.nil_prefix]
    | cons a q' =>
      have ha := hq a (List.mem_cons_self a q')
      have hq' : ∀ c ∈ q', c ≠ '%' ∧ c ≠ '_' := fun c hc => hq c (List.mem_cons_of_mem _ hc)
      cases s with
      | nil =>
        simp [likeMatchF, ha.1]
      | cons c cs =>
        have key := ih q' cs (by simp at hlen ⊢; omega) hq'
        simp [likeMatchF, ha.1, ha.2, key, List.cons_prefix_cons]

theorem likeMatch_prefix_pattern (q s : List Char)
    (hq : ∀ c ∈ q, c ≠ '%' ∧ c ≠ '_') :
    (likeMatch (q ++ ['%']) s = true ↔ q <+: s) := by
  apply likeMatchF_prefix_pattern
  · simp only [List.length_append, List.length_cons, List.length_nil]
    omega
  · exact hq

/-- C5 (amended): for a scope prefix containing none of the SQL LIKE
metacharacters `%`, `_` and the escape `\`, `get_stale_methods` returns
exactly the identities of rows whose source path starts with the prefix
and whose `last_seen_at` is strictly earlier than the scan start time.
(For a prefix containing LIKE metacharacters the pattern `prefix%` can
also match paths outside the prefix scope — see the counterexample.) -/
theorem get_stale_methods_exact (db : List Row) (pfx : String) (t : Int)
    (hw : ∀ c ∈ pfx.data, c ≠ '%' ∧ c ≠ '_' ∧ c ≠ '\\') :
    ∀ i : String, i ∈ getStaleMethods db pfx t ↔
      ∃ r ∈ db, r.id = i ∧ pfx.data <+: r.source_path.data ∧ r.last_seen_at < t := by
  intro i
  have hq : ∀ c ∈ pfx.data, c ≠ '%' ∧ c ≠ '_' := fun c hc => ⟨(hw c hc).1, (hw c hc).2.1⟩
  simp only [getStaleMethods, List.mem_map, List.mem_filter, Bool.and_eq_true,
    decide_eq_true_eq]
  constructor
  · rintro ⟨r, ⟨hmem, hlike, hlt⟩, rfl⟩
    exact ⟨r, hmem, rfl, (likeMatch_prefix_pattern _ _ hq).mp hlike, hlt⟩
  · rintro ⟨r, hmem, rfl, hpfx, hlt⟩
    exact ⟨r, ⟨hmem, (likeMatch_prefix_pattern _ _ hq).mpr hpfx, hlt⟩, rfl⟩

/-- Row observed at time 0 with source path `axb/F.java`, used by the
staleness counterexample and witness. -/
def staleRow : Row := { exRow with id := "s1", source_path := "axb/F.java", last_seen_at := 0 }

/-- C5 counterexample: with scope prefix `a_b` the query returns the
record with path `axb/F.java`, which does not fall under the prefix — the
LIKE wildcard `_` matches the `x` — so "no record outside the prefix scope
is returned" fails for the claim as stated. -/
theorem get_stale_methods_counterexample :
    getStaleMethods [staleRow] "a_b" 1 = ["s1"] ∧
    ¬ ("a_b".data <+: "axb/F.java".data) := by
  exact ⟨by decide, by decide⟩

/-- Witness for C5 (amended) at a wildcard-free prefix: the stale row is
returned for a scan time after its `last_seen_at` and not returned for a
scan time not after it. -/
theorem get_stale_methods_exact_witness :
    ("s1" ∈ getStaleMethods [staleRow] "axb" 1) ∧
    ¬ ("s1" ∈ getStaleMethods [staleRow] "axb" 0) := by
  constructor
  · exact (get_stale_methods_exact [staleRow] "axb" 1 (by decide) "s1").mpr
      ⟨staleRow, by decide, by decide, by decide, by decide⟩
  · intro hmem
    obtain ⟨r, hr, hid, hpfx, hlt⟩ :=
      (get_stale_methods_exact [staleRow] "axb" 0 (by decide) "s1").mp hmem
    simp at hr
    subst hr
    exact absurd hlt (by decide)

theorem bulkRowUpdate_id (update_data : List (String × Int × Rat)) (r : Row) :
    (bulkRowUpdate update_data r).id = r.id := by
  rw [bulkRowUpdate]
  cases hm : update_data.find? (fun d => d.1 == r.id) with
  | none => rfl
  | some d =>
    obtain ⟨a, b, c⟩ := d
    rfl

/-- C6 (amended): both the single form (`update_vector_sync_status`) and
the bulk form (`bulk_update_vector_sync`) set `vector_status='synced'`
for the given identity, overwrite `vector_tokens` with the reported token
usage, and add the reported cost onto the accumulated `total_cost`; the
bulk form applies all its per-row updates in one set-based pass over the
table (rows without an entry in the VALUES list are untouched). -/
theorem mark_vector_synced_updates :
    (∀ (db : List Row) (i : String) (tok : Int) (cost : Rat) (r : Row),
        findRow db i = some r →
          findRow (updateVectorSyncStatus db i tok cost) i =
            some { r with vector_status := "synced", vector_tokens := tok,
                          total_cost := r.total_cost + cost }) ∧
    (∀ (db : List Row) (data : List (String × Int × Rat)) (i : String) (tok : Int)
        (cost : Rat) (r : Row),
        data.find? (fun d => d.1 == i) = some (i, tok, cost) →
          findRow db i = some r →
            findRow (bulkUpdateVectorSync db data) i =
              some { r with vector_status := "synced", vector_tokens := tok,
                            total_cost := r.total_cost + cost }) ∧
    (∀ (db : List Row) (data : List (String × Int × Rat)) (i : String),
        data.find? (fun d => d.1 == i) = none →
          findRow (bulkUpdateVectorSync db data) i = findRow db i) := by
  refine ⟨?_, ?_, ?_⟩
  · intro db i tok cost r h
    have heq : r.id = i := findRow_id h
    unfold updateVectorSyncStatus
    rw [findRow_map db _ (fun s => by by_cases hh : (s.id == i) = true <;> simp [hh]) i, h]
    simp [heq]
  · intro db data i tok cost r hfind h
    have heq : r.id = i := findRow_id h
    have hne : data.isEmpty = false := by
      cases data with
      | nil => simp at hfind
      | cons d ds => rfl
    unfold bulkUpdateVectorSync
    rw [if_neg (by simp [hne]), findRow_map db _ (bulkRowUpdate_id data) i, h]
    simp only [Option.map_some']
    rw [bulkRowUpdate, heq, hfind]
  · intro db data i hfind
    unfold bulkUpdateVectorSync
    by_cases hdata : data.isEmpty
    · simp [hdata]
    · rw [if_neg (by simpa using hdata), findRow_map db _ (bulkRowUpdate_id data) i]
      cases hdb : findRow db i with
      | none => simp
      | some r =>
        have heq : r.id = i := findRow_id hdb
        simp only [Option.map_some']
        rw [bulkRowUpdate, heq, hfind]

/-- C6 counterexample: with 5 tokens already stored, reporting 3 tokens
leaves 3 in the counter (it is overwritten), not the accumulated 8, in
both the single and the bulk form; so "accumulates the reported token
usage onto that record's counters" fails for the claim as stated. -/
theorem mark_vector_synced_counterexample :
    Option.map Row.vector_tokens (findRow (updateVectorSyncStatus [exRow] "a" 3 0) "a") =
      some 3 ∧
    Option.map Row.vector_tokens (findRow (bulkUpdateVectorSync [exRow] [("a", 3, 0)]) "a") =
      some 3 ∧
    exRow.vector_tokens = 5 ∧ (3 : Int) ≠ 5 + 3 := by
  exact ⟨by decide, by decide, by decide, by decide⟩

/-- Witness for C6 (amended) at a concrete table: single-row update,
matched bulk entry, and unmatched bulk entry. -/
theorem mark_vector_synced_updates_witness :
    findRow (updateVectorSyncStatus [exRow] "a" 3 0) "a" =
      some { exRow with vector_status := "synced", vector_tokens := 3,
                        total_cost := exRow.total_cost + 0 } ∧
    findRow (bulkUpdateVectorSync [exRow] [("a", 3, 0)]) "a" =
      some { exRow with vector_status := "synced", vector_tokens := 3,
                        total_cost := exRow.total_cost + 0 } ∧
    findRow (bulkUpdateVectorSync [exRow] [("zz", 3, 0)]) "a" = findRow [exRow] "a" := by
  exact ⟨mark_vector_synced_updates.1 [exRow] "a" 3 0 exRow rfl,
    mark_vector_synced_updates.2.1 [exRow] [("a", 3, 0)] "a" 3 0 exRow rfl rfl,
    mark_vector_synced_updates.2.2 [exRow] [("zz", 3, 0)] "a" rfl⟩

/-- Concrete file context used by extraction witnesses. -/
def exCtx : Ctx :=
  { rel_path := "a/A.java"
    package_name := "com.x.app"
    imports := ["com.x.util.Y", "org.z.W"]
    component := "a" }

/-- Concrete method node used by extraction witnesses. -/
def exNode : MethodNode :=
  { name := "foo"
    parameters := []
    modifiers := ["public"]
    returnTypeName := none
    documentation := none
    positionLine := 1 }

/-- C7 (amended): an import is classified internal exactly when it starts,
as a raw string, with the package prefix (the dot-join of the first two
dot-separated package segments, or the whole package when it has a single
segment), and external otherwise; each stored dependency list is the
comma-join of at most the first 10 entries of its class.  (Sharing the
first two dot-separated segments is sufficient but not necessary for the
code's string-prefix test — see the counterexample.) -/
theorem dependency_classification (package_name : String) (imports : List String) :
    (∀ i ∈ imports,
        (i ∈ (analyzeDependencies package_name imports).1 ↔
          (depPrefix package_name).data <+: i.data)) ∧
    (∀ i ∈ imports,
        (i ∈ (analyzeDependencies package_name imports).2 ↔
          ¬ (depPrefix package_name).data <+: i.data)) ∧
    (∀ (md5 : String → String) (lines : List String) (ctx : Ctx) (cp fs : String)
        (node : MethodNode),
        (mkMethodTuple md5 lines ctx cp fs node).internal_deps =
          String.intercalate ", "
            ((analyzeDependencies ctx.package_name ctx.imports).1.take 10) ∧
        (mkMethodTuple md5 lines ctx cp fs node).external_libs =
          String.intercalate ", "
            ((analyzeDependencies ctx.package_name ctx.imports).2.take 10)) ∧
    (((analyzeDependencies package_name imports).1.take 10).length ≤ 10 ∧
      ((analyzeDependencies package_name imports).2.take 10).length ≤ 10) := by
  refine ⟨?_, ?_, ?_, ?_⟩
  · intro i hi
    simp [analyzeDependencies, List.mem_filter, hi, List.isPrefixOf_iff_prefix]
  · intro i hi
    simp only [analyzeDependencies, List.mem_filter, hi, true_and, Bool.not_eq_true']
    rw [← List.isPrefixOf_iff_prefix]
    exact Bool.eq_false_iff
  · intro md5 lines ctx cp fs node
    exact ⟨rfl, rfl⟩
  · exact ⟨List.length_take_le 10 _, List.length_take_le 10 _⟩

/-- C7 counterexample: with package `com.foo`, the import `com.foobar.Baz`
does not share the first two dot-separated segments (`com`,`foobar` vs
`com`,`foo`), yet the code classifies it internal, because classification
is the raw string-prefix test `startswith("com.foo")`. -/
theorem dependency_classification_counterexample :
    (analyzeDependencies "com.foo" ["com.foobar.Baz"]).1 = ["com.foobar.Baz"] ∧
    sharesFirstTwoSegments "com.foo" "com.foobar.Baz" = false := by
  exact ⟨by decide, by decide⟩

/-- Witness for C7 (amended) at a concrete package and import list. -/
theorem dependency_classification_witness :
    ("com.x.util.Y" ∈ (analyzeDependencies "com.x.app" ["com.x.util.Y", "org.z.W"]).1 ↔
      (depPrefix "com.x.app").data <+: "com.x.util.Y".data) ∧
    ("org.z.W" ∈ (analyzeDependencies "com.x.app" ["com.x.util.Y", "org.z.W"]).2 ↔
      ¬ (depPrefix "com.x.app").data <+: "org.z.W".data) ∧
    (mkMethodTuple (fun s => s) [] exCtx "A" "sig" exNode).internal_deps =
      String.intercalate ", " ((analyzeDependencies exCtx.package_name exCtx.imports).1.take 10) ∧
    ((analyzeDependencies "com.x.app" ["com.x.util.Y", "org.z.W"]).1.take 10).length ≤ 10 := by
  exact ⟨(dependency_classification "com.x.app" ["com.x.util.Y", "org.z.W"]).1 _ (by decide),
    (dependency_classification "com.x.app" ["com.x.util.Y", "org.z.W"]).2.1 _ (by decide),
    ((dependency_classification exCtx.package_name exCtx.imports).2.2.1
      (fun s => s) [] exCtx "A" "sig" exNode).1,
    (dependency_classification "com.x.app" ["com.x.util.Y", "org.z.W"]).2.2.2.1⟩

/-- Running brace balance over the first `k` lines. -/
def lineBal (ls : List String) (k : Nat) : Int := ((ls.take k).map braceDelta).sum

/-- Whether an opening brace occurs within the first `k` lines. -/
def openSeen (ls : List String) (k : Nat) : Bool :=
  (ls.take k).any fun l => l.data.contains openBrace

theorem openSeen_cons_succ (l : String) (rest : List String) (k : Nat) :
    openSeen (l :: rest) (k + 1) = (l.data.contains openBrace || openSeen rest k) := by
  simp [openSeen]

theorem lineBal_cons_succ (l : String) (rest : List String) (k : Nat) :
    lineBal (l :: rest) (k + 1) = braceDelta l + lineBal rest k := by
  simp [lineBal]

theorem collectBody_take :
    ∀ (ls : List String) (bc : Int) (st : Bool) (k : Nat),
      ((st || openSeen ls (k + 1)) = true ∧ bc + lineBal ls (k + 1) ≤ 0) →
      (∀ j < k, ¬ ((st || openSeen ls (j + 1)) = true ∧ bc + lineBal ls (j + 1) ≤ 0)) →
      collectBody ls bc st = ls.take (k + 1) := by
  intro ls
  induction ls with
  | nil =>
    intro bc st k h hmin
    simp [collectBody]
  | cons l rest ih =>
    intro bc st k h hmin
    have hcond0 : ((st || openSeen (l :: rest) 1) = true ∧ bc + lineBal (l :: rest) 1 ≤ 0) ↔
        (((st || l.data.contains openBrace) = true) ∧ bc + braceDelta l ≤ 0) := by
      rw [openSeen_cons_succ, lineBal_cons_succ]
      simp [openSeen, lineBal]
    by_cases hstop : ((st || l.data.contains openBrace) = true ∧ bc + braceDelta l ≤ 0)
    · have hk : k = 0 := by
        by_contra hk0
        exact hmin 0 (by omega) (hcond0.mpr hstop)
      subst hk
      rw [collectBody]
      simp only [hstop.1, hstop.2, and_self, if_pos, List.take_succ_cons, List.take_zero]
    · cases k with
      | zero => exact absurd (hcond0.mp h) hstop
      | succ k' =>
        rw [collectBody]
        rw [if_neg (by simpa using hstop)]
        have h' : ((st || l.data.contains openBrace) || openSeen rest (k' + 1)) = true ∧
            (bc + braceDelta l) + lineBal rest (k' + 1) ≤ 0 := by
          constructor
          · have := h.1
            rw [openSeen_cons_succ] at this
            rw [← Bool.or_assoc] at this
            exact this
          · have := h.2
            rw [lineBal_cons_succ] at this
            omega
        have hmin' : ∀ j < k',
            ¬ (((st || l.data.contains openBrace) || openSeen rest (j + 1)) = true ∧
              (bc + braceDelta l) + lineBal rest (j + 1) ≤ 0) := by
          intro j hj hcon
          apply hmin (j + 1) (by omega)
          constructor
          · rw [openSeen_cons_succ, ← Bool.or_assoc]
            exact hcon.1
          · rw [lineBal_cons_succ]
            omega
        rw [List.take_succ_cons, ih (bc + braceDelta l) (st || l.data.contains openBrace) k' h' hmin']

/-- C4: `_get_method_body`, started at the declaration line, returns whole
lines up to and including the first line after which an opening brace has
been seen and the running open-minus-close balance is zero or below: when
`k` is the least index (counted from the start line) at which that stop
condition holds, the body is exactly the `k + 1` lines from the start line
and the returned line count is `k + 1`. -/
theorem method_body_bounding (lines : List String) (start k : Nat)
    (h1 : openSeen (lines.drop start) (k + 1) = true ∧
      lineBal (lines.drop start) (k + 1) ≤ 0)
    (h2 : ∀ j < k, ¬ (openSeen (lines.drop start) (j + 1) = true ∧
      lineBal (lines.drop start) (j + 1) ≤ 0)) :
    getMethodBody lines start =
      (String.intercalate "\n" ((lines.drop start).take (k + 1)), k + 1) := by
  have hc : collectBody (lines.drop start) 0 false = (lines.drop start).take (k + 1) := by
    apply collectBody_take
    · simpa using h1
    · simpa using h2
  have hlen : k + 1 ≤ (lines.drop start).length := by
    by_contra hgt
    push_neg at hgt
    set ls := lines.drop start with hls
    have hlsne : ls ≠ [] := by
      intro hnil
      rw [hnil] at h1
      simp [openSeen] at h1
    have hlpos : 0 < ls.length := List.length_pos.mpr hlsne
    have hjlt : ls.length - 1 < k := by omega
    apply h2 (ls.length - 1) hjlt
    have htake1 : ls.take (ls.length - 1 + 1) = ls := by
      apply List.take_of_length_le
      omega
    have htake2 : ls.take (k + 1) = ls := by
      apply List.take_of_length_le
      omega
    constructor
    · have h1a := h1.1
      rw [openSeen, htake2] at h1a
      rw [openSeen, htake1]
      exact h1a
    · have h1b := h1.2
      rw [lineBal, htake2] at h1b
      rw [lineBal, htake1]
      exact h1b
  rw [getMethodBody]
  simp only [hc]
  rw [List.length_take, Nat.min_eq_left hlen]

/-- Concrete three-line method body used by witnesses. -/
def exLines : List String := ["foo() \x7b", "x = 1;", "\x7d"]

/-- Witness for C4: a method whose first line is `foo() ` followed by an
opening brace and whose balance first returns to zero on the third line
yields exactly those three lines, with line count 3. -/
theorem method_body_bounding_witness :
    getMethodBody exLines 0 =
      (String.intercalate "\n" ((exLines.drop 0).take 3), 3) ∧
    String.intercalate "\n" ((exLines.drop 0).take 3) =
      String.intercalate "\n" exLines := by
  constructor
  · exact method_body_bounding exLines 0 2 (by decide) (by decide)
  · decide

theorem collectBody_eq_take :
    ∀ (ls : List String) (bc : Int) (st : Bool), ∃ n, collectBody ls bc st = ls.take n := by
  intro ls
  induction ls with
  | nil => intro bc st; exact ⟨0, rfl⟩
  | cons l rest ih =>
    intro bc st
    rw [collectBody]
    by_cases hstop : ((st || l.data.contains openBrace) = true ∧ bc + braceDelta l ≤ 0)
    · refine ⟨1, ?_⟩
      rw [if_pos hstop]
      simp
    · obtain ⟨n, hn⟩ := ih (bc + braceDelta l) (st || l.data.contains openBrace)
      refine ⟨n + 1, ?_⟩
      rw [if_neg hstop, hn, List.take_succ_cons]

theorem collectBody_ne_nil (l : String) (rest : List String) (bc : Int) (st : Bool) :
    collectBody (l :: rest) bc st ≠ [] := by
  rw [collectBody]
  by_cases hstop : ((st || l.data.contains openBrace) = true ∧ bc + braceDelta l ≤ 0)
  · rw [if_pos hstop]
    simp
  · rw [if_neg hstop]
    simp

theorem extractLoop_mem (md5 : String → String) (lines : List String) (ctx : Ctx) :
    ∀ (nodes : List (List PathNode × MethodNode)) (registry : List String)
      (r : MethodTuple), r ∈ extractLoop md5 lines ctx nodes registry →
      ∃ path node sig, (path, node) ∈ nodes ∧
        r = mkMethodTuple md5 lines ctx (getNestedClassPath path) sig node := by
  intro nodes
  induction nodes with
  | nil => intro reg r h; simp [extractLoop] at h
  | cons pn rest ih =>
    intro reg r h
    obtain ⟨path, node⟩ := pn
    rw [extractLoop] at h
    rcases List.mem_cons.mp h with rfl | h'
    · exact ⟨path, node, _, List.mem_cons_self _ _, rfl⟩
    · obtain ⟨p, n, s, hmem, hr⟩ := ih _ r h'
      exact ⟨p, n, s, List.mem_cons_of_mem _ hmem, hr⟩

/-- C10: every record emitted by extraction comes from some method node of
the file, and its `method_code` is the newline-join of exactly
`line_count` consecutive source lines starting at that node's declaration
line (`node.positionLine - 1`, 0-based), with `line_count ≥ 1` whenever
the file has a line at the declaration position. -/
theorem line_count_matches_method_code (md5 : String → String) (lines : List String)
    (ctx : Ctx) (nodes : List (List PathNode × MethodNode)) (r : MethodTuple)
    (h : r ∈ extractMethodsFromTree md5 lines ctx nodes) :
    ∃ path node sig, (path, node) ∈ nodes ∧
      r = mkMethodTuple md5 lines ctx (getNestedClassPath path) sig node ∧
      r.method_code = String.intercalate "\n"
        ((lines.drop (node.positionLine - 1)).take r.line_count) ∧
      r.line_count = ((lines.drop (node.positionLine - 1)).take r.line_count).length ∧
      (node.positionLine - 1 < lines.length → 1 ≤ r.line_count) := by
  obtain ⟨path, node, sig, hmem, rfl⟩ := extractLoop_mem md5 lines ctx nodes [] r h
  refine ⟨path, node, sig, hmem, rfl, ?_⟩
  obtain ⟨n, hn⟩ := collectBody_eq_take (lines.drop (node.positionLine - 1)) 0 false
  have hcode : (mkMethodTuple md5 lines ctx (getNestedClassPath path) sig node).method_code =
      String.intercalate "\n" (collectBody (lines.drop (node.positionLine - 1)) 0 false) := rfl
  have hcount : (mkMethodTuple md5 lines ctx (getNestedClassPath path) sig node).line_count =
      (collectBody (lines.drop (node.positionLine - 1)) 0 false).length := rfl
  have htake : (lines.drop (node.positionLine - 1)).take
        (collectBody (lines.drop (node.positionLine - 1)) 0 false).length =
      collectBody (lines.drop (node.positionLine - 1)) 0 false := by
    rw [hn, List.length_take]
    rcases le_total n (lines.drop (node.positionLine - 1)).length with hle | hle
    · rw [Nat.min_eq_left hle]
    · rw [Nat.min_eq_right hle, List.take_of_length_le hle, List.take_length]
  refine ⟨?_, ?_, ?_⟩
  · rw [hcode, hcount, htake]
  · rw [hcount, htake]
  · intro hlt
    rw [hcount]
    cases hcase : lines.drop (node.positionLine - 1) with
    | nil =>
      exfalso
      have hle := List.drop_eq_nil_iff.mp hcase
      omega
    | cons a tail =>
      have hne := collectBody_ne_nil a tail 0 false
      have hpos : 0 < (collectBody (a :: tail) 0 false).length := List.length_pos.mpr hne
      omega

/-- Final signature of the single witness method. -/
def exSig : String := "a/A.java#Unknown#foo()"

/-- The extraction tuple of the witness method. -/
def exRec : MethodTuple := mkMethodTuple (fun s => s) exLines exCtx "Unknown" exSig exNode

/-- Witness for C10 at a concrete extraction: the single record stems from
the node declared on line 1, its method_code joins exactly its
`line_count = 3` lines from position 0, and the count is positive because
the file has a line there. -/
theorem line_count_matches_method_code_witness :
    (∃ path node sig, (path, node) ∈ [([], exNode)] ∧
      exRec = mkMethodTuple (fun s => s) exLines exCtx (getNestedClassPath path) sig node ∧
      exRec.method_code = String.intercalate "\n"
        ((exLines.drop (node.positionLine - 1)).take exRec.line_count) ∧
      exRec.line_count = ((exLines.drop (node.positionLine - 1)).take exRec.line_count).length ∧
      (node.positionLine - 1 < exLines.length → 1 ≤ exRec.line_count)) ∧
    exRec.line_count = 3 ∧
    exRec.method_code = String.intercalate "\n" ((exLines.drop 0).take 3) ∧
    exNode.positionLine - 1 < exLines.length ∧
    1 ≤ exRec.line_count := by
  refine ⟨?_, by decide, by decide, by decide, by decide⟩
  exact line_count_matches_method_code (fun s => s) exLines exCtx [([], exNode)] exRec
    (by decide)

theorem extractLoop_map_id (md5 : String → String) (lines : List String) (ctx : Ctx) :
    ∀ (nodes : List (List PathNode × MethodNode)) (registry : List String),
      (extractLoop md5 lines ctx nodes registry).map MethodTuple.id =
        (extractLoopSigs ctx nodes registry).map md5 := by
  intro nodes
  induction nodes with
  | nil => intro reg; rfl
  | cons pn rest ih =>
    intro reg
    obtain ⟨path, node⟩ := pn
    rw [extractLoop, extractLoopSigs]
    simp only [List.map_cons, ih]
    rfl

theorem extractLoopSigs_fresh (ctx : Ctx) :
    ∀ (nodes : List (List PathNode × MethodNode)) (registry : List String),
      (∀ s ∈ extractLoopSigs ctx nodes registry, s ∉ registry) ∧
      (extractLoopSigs ctx nodes registry).Nodup := by
  intro nodes
  induction nodes with
  | nil =>
    intro reg
    constructor
    · intro s hs
      simp [extractLoopSigs] at hs
    · simp [extractLoopSigs]
  | cons pn rest ih =>
    intro reg
    obtain ⟨path, node⟩ := pn
    obtain ⟨hrest, hnodup⟩ :=
      ih (resolveSig reg (baseSig ctx path node) :: reg)
    constructor
    · intro s hs
      rw [extractLoopSigs] at hs
      rcases List.mem_cons.mp hs with rfl | hs'
      · exact resolveSig_fresh reg _
      · intro hcon
        exact hrest s hs' (List.mem_cons_of_mem _ hcon)
    · rw [extractLoopSigs, List.nodup_cons]
      exact ⟨fun hcon => hrest _ hcon (List.mem_cons_self _ _), hnodup⟩

/-- C2: within one file's extraction pass, and for an injective digest
function, the identities of all extracted methods are pairwise distinct;
the resolver never returns an already-registered signature, re-checking
membership of `base#sub_k` candidates until one is unused, and leaves an
unregistered base signature unchanged; and a method whose enclosing path
contributes no named class (nor anonymous class body) receives the
sentinel path `Unknown` instead of failing. -/
theorem extract_identities_distinct (md5 : String → String) (lines : List String)
    (ctx : Ctx) (nodes : List (List PathNode × MethodNode))
    (hinj : Function.Injective md5) :
    ((extractMethodsFromTree md5 lines ctx nodes).map MethodTuple.id).Nodup ∧
    (extractLoopSigs ctx nodes []).Nodup ∧
    (∀ (registry : List String) (base : String), resolveSig registry base ∉ registry) ∧
    (∀ (registry : List String) (base : String), base ∉ registry →
      resolveSig registry base = base) ∧
    (∀ path : List PathNode, path.filterMap pathPart = [] →
      getNestedClassPath path = "Unknown") := by
  refine ⟨?_, (extractLoopSigs_fresh ctx nodes []).2, resolveSig_fresh,
    resolveSig_base_fresh, ?_⟩
  · rw [extractMethodsFromTree, extractLoop_map_id]
    exact ((extractLoopSigs_fresh ctx nodes []).2).map hinj
  · intro path hp
    rw [getNestedClassPath]
    simp [hp]

/-- Witness for C2: two methods with no enclosing named class, identical
name `foo` and identical (empty) parameter lists still receive distinct
identities — the base key plus its `#sub_1` variant — and the empty
enclosing path resolves to `Unknown`. -/
theorem extract_identities_distinct_witness :
    ((extractMethodsFromTree (fun s => s) exLines exCtx
        [([], exNode), ([], exNode)]).map MethodTuple.id).Nodup ∧
    getNestedClassPath [] = "Unknown" ∧
    (extractMethodsFromTree (fun s => s) exLines exCtx
        [([], exNode), ([], exNode)]).map MethodTuple.id =
      ["a/A.java#Unknown#foo()", "a/A.java#Unknown#foo()#sub_1"] := by
  refine ⟨(extract_identities_distinct (fun s => s) exLines exCtx
      [([], exNode), ([], exNode)] (fun a b hab => hab)).1,
    (extract_identities_distinct (fun s => s) exLines exCtx
      [([], exNode), ([], exNode)] (fun a b hab => hab)).2.2.2.2 [] rfl,
    by decide⟩

/-- C3: identity assignment is deterministic.  In the embedding, extraction
is a pure function of the digest function, the file's lines, the file
context and the document-order node list — mirroring the code, where the
identity input is only the resolved signature string and the fingerprint
input only the method body text, with no clock, randomness or environment
involved — so two runs over byte-identical input produce identical
identities and content hashes (indeed identical records). -/
theorem extract_deterministic (md5 : String → String)
    (lines₁ lines₂ : List String) (ctx₁ ctx₂ : Ctx)
    (nodes₁ nodes₂ : List (List PathNode × MethodNode))
    (hl : lines₁ = lines₂) (hc : ctx₁ = ctx₂) (hn : nodes₁ = nodes₂) :
    (extractMethodsFromTree md5 lines₁ ctx₁ nodes₁).map
        (fun r => (r.id, r.content_hash)) =
      (extractMethodsFromTree md5 lines₂ ctx₂ nodes₂).map
        (fun r => (r.id, r.content_hash)) ∧
    extractMethodsFromTree md5 lines₁ ctx₁ nodes₁ =
      extractMethodsFromTree md5 lines₂ ctx₂ nodes₂ := by
  subst hl hc hn
  exact ⟨rfl, rfl⟩

/-- Witness for C3 at a concrete file: the two runs coincide. -/
theorem extract_deterministic_witness :
    (extractMethodsFromTree (fun s => s) exLines exCtx [([], exNode)]).map
        (fun r => (r.id, r.content_hash)) =
      (extractMethodsFromTree (fun s => s) exLines exCtx [([], exNode)]).map
        (fun r => (r.id, r.content_hash)) ∧
    extractMethodsFromTree (fun s => s) exLines exCtx [([], exNode)] =
      extractMethodsFromTree (fun s => s) exLines exCtx [([], exNode)] :=
  extract_deterministic (fun s => s) exLines exLines exCtx exCtx
    [([], exNode)] [([], exNode)] rfl rfl rfl

/-- C9: a missing root directory yields an empty result rather than an
error; a file whose read fails or whose parse fails (for any error)
contributes zero records; and for an existing root the overall result is
the concatenation of the per-file results over the filtered files, so a
single file's failure leaves every other file's contribution intact and
never aborts the scan. -/
theorem extraction_failure_semantics (md5 : String → String)
    (parseFn : String → Except String ParsedTree) (dir : SourceDir) :
    (dir.dirExists = false → extractFromDirectory md5 parseFn dir = []) ∧
    (∀ (f : FileEntry) (e : String), f.readResult = .error e →
      parseFile md5 parseFn f = []) ∧
    (∀ (f : FileEntry) (code pe : String), f.readResult = .ok code →
      parseFn code = .error pe → parseFile md5 parseFn f = []) ∧
    (dir.dirExists = true →
      extractFromDirectory md5 parseFn dir =
        (dir.files.filter isJavaTarget).flatMap (parseFile md5 parseFn)) := by
  refine ⟨?_, ?_, ?_, ?_⟩
  · intro h
    simp [extractFromDirectory, h]
  · intro f e h
    simp [parseFile, h]
  · intro f code pe h hp
    simp [parseFile, h, hp]
  · intro h
    simp [extractFromDirectory, h]

/-- File whose read fails with an I/O (or encoding) error. -/
def exBadFile : FileEntry := { name := "B.java", relPath := "B.java", readResult := .error "io" }

/-- File that reads fine but whose parse will fail. -/
def exOkFile : FileEntry := { name := "A.java", relPath := "A.java", readResult := .ok "class A" }

/-- Witness for C9: missing directory, unreadable file, unparsable file,
and the per-file concatenation over an existing directory. -/
theorem extraction_failure_semantics_witness :
    extractFromDirectory (fun s => s) (fun _ => Except.error "syntax")
        { dirExists := false, files := [exOkFile] } = [] ∧
    parseFile (fun s => s) (fun _ => Except.error "syntax") exBadFile = [] ∧
    parseFile (fun s => s) (fun _ => Except.error "syntax") exOkFile = [] ∧
    extractFromDirectory (fun s => s) (fun _ => Except.error "syntax")
        { dirExists := true, files := [exBadFile, exOkFile] } =
      ([exBadFile, exOkFile].filter isJavaTarget).flatMap
        (parseFile (fun s => s) (fun _ => Except.error "syntax")) := by
  refine ⟨(extraction_failure_semantics (fun s => s) (fun _ => Except.error "syntax")
      { dirExists := false, files := [exOkFile] }).1 rfl,
    (extraction_failure_semantics (fun s => s) (fun _ => Except.error "syntax")
      { dirExists := false, files := [exOkFile] }).2.1 exBadFile "io" rfl,
    (extraction_failure_semantics (fun s => s) (fun _ => Except.error "syntax")
      { dirExists := false, files := [exOkFile] }).2.2.1 exOkFile "class A" "syntax" rfl rfl,
    (extraction_failure_semantics (fun s => s) (fun _ => Except.error "syntax")
      { dirExists := true, files := [exBadFile, exOkFile] }).2.2.2 rfl⟩

end Incite
